import Mathlib

/-!
Shallow embedding of the feed-discovery core of toozej/RSSFFS
(package `internal/RSSFFS`, file with `validateURL`, `isPrivateIP`,
`extractDomainFromURL`, `getAllDomainsFromPage`, `checkDomainsForRSS`,
`findPreferredRSSFeed`, `checkRSSFeed`, `Run`, `runSingleURLMode`,
`runTraversalMode`).

The network (DNS resolution and HTTP fetches) is an explicit environment
`Network`; the remote feed-reader REST client is an explicit environment
`Api`.  Go byte slices (`net.IP`) are `List Nat`; Go strings are `String`;
fallible Go calls returning `(T, error)` are `Except`/`Option`.
-/

namespace RSSFFS

/-- Substring occurrence on char lists: `hasSub pat s` is Go
`strings.Contains(s, pat)` (a case-sensitive byte substring test). -/
def hasSub (pat : List Char) : List Char → Bool
  | [] => pat.isEmpty
  | c :: t => pat.isPrefixOf (c :: t) || hasSub pat t

/-- Go `strings.Contains(s, sub)`: case-sensitive substring test. -/
def strContains (s sub : String) : Bool := hasSub sub.data s.data

/-- Go `strings.HasPrefix(s, pre)` (computes by unfolding, unlike
`String.startsWith`). -/
def strStartsWith (s pre : String) : Bool := pre.data.isPrefixOf s.data

/-- Go `strings.HasSuffix(s, suf)`. -/
def strEndsWith (s suf : String) : Bool := suf.data.isSuffixOf s.data

/-- ASCII lowercasing, character by character (Go lowercases the scheme;
`String.toLower` computed the same but does not unfold). -/
def strToLower (s : String) : String := ⟨s.data.map Char.toLower⟩

/-- Index of the last occurrence of `c` in `cs` (Go `strings.LastIndexByte`). -/
def lastIdxOf (cs : List Char) (c : Char) : Option Nat :=
  match cs.reverse.findIdx? (fun x => x == c) with
  | none => none
  | some j => some (cs.length - 1 - j)

/-! ### net.IP (Go byte slices) -/

/-- The 12-byte prefix of an IPv4-mapped IPv6 address (Go `v4InV6Prefix`). -/
def v4InV6Prefix : List Nat := [0, 0, 0, 0, 0, 0, 0, 0, 0, 0, 255, 255]

/-- Go `net.IPv6loopback` (`::1`). -/
def ipv6loopback : List Nat := [0, 0, 0, 0, 0, 0, 0, 0, 0, 0, 0, 0, 0, 0, 0, 1]

/-- Go `net.IP.To4`: the 4-byte form when the address is IPv4 (either
already 4 bytes long, or 16 bytes long with the IPv4-mapped prefix). -/
def ipTo4 (ip : List Nat) : Option (List Nat) :=
  if ip.length = 4 then some ip
  else if ip.length = 16 && ip.take 12 == v4InV6Prefix then some (ip.drop 12)
  else none

/-- Go `net.IP.To16`: defined (non-nil) exactly for 4- and 16-byte slices. -/
def ipTo16 (ip : List Nat) : Option (List Nat) :=
  if ip.length = 4 then some (v4InV6Prefix ++ ip)
  else if ip.length = 16 then some ip
  else none

/-- Go `net.IP.Equal`: bytewise equality up to the IPv4-mapped embedding. -/
def ipEqual (x y : List Nat) : Bool :=
  if x.length = y.length then x == y
  else if x.length = 4 && y.length = 16 then
    y.take 12 == v4InV6Prefix && y.drop 12 == x
  else if x.length = 16 && y.length = 4 then
    x.take 12 == v4InV6Prefix && x.drop 12 == y
  else false

/-- Go `isPrivateIP` (the SSRF filter), byte for byte.  Note that after the
`ip.To4() != nil` / `ip.To16() != nil` guards the Go code indexes the RAW
slice (`ip[0]`, `ip[1]`), not the 4-byte form `To4` returns; `List.getD`
stands for that indexing (the guards keep every read in bounds for the
4- and 16-byte slices `net.LookupIP` produces). -/
def isPrivateIP (ip : List Nat) : Bool :=
  let b0 := ip.getD 0 0
  let b1 := ip.getD 1 0
  if (ipTo4 ip).isSome &&
      (b0 == 10 ||
       (b0 == 172 && decide (16 ≤ b1) && decide (b1 ≤ 31)) ||
       (b0 == 192 && b1 == 168) ||
       b0 == 127 ||
       (b0 == 169 && b1 == 254)) then
    true
  else if (ipTo16 ip).isSome &&
      (ipEqual ip ipv6loopback ||
       (b0 == 0xfe && (b1 &&& 0xc0) == 0x80) ||
       ((b0 &&& 0xfe) == 0xfc)) then
    true
  else false

/-! ### net/url (the slice of Go's URL parser the code exercises)

The repository calls `url.Parse` and reads only `u.Scheme`, `u.Host`,
`u.Hostname()`.  `parseURL` models `net/url.Parse` for those fields:
fragment cut at the first `#`, scheme per `getScheme`, query cut at the
first `?`, authority between `//` and the next `/`, userinfo dropped at
the last `@`, the port validated at the last `:` (`validOptionalPort`),
and host bytes checked against the characters `shouldEscape` admits in a
host.  Percent-escapes in hosts are treated as parse failures (Go decodes
valid ones; no input in this development carries one). -/

/-- Parsed URL: the two fields of Go `url.URL` the repository reads
(`Host` keeps the port, as in Go). -/
structure GoURL where
  scheme : String
  host : String
  deriving DecidableEq, Repr

/-- Characters Go allows in a URL scheme after the first (RFC 3986). -/
def isSchemeChar (c : Char) : Bool :=
  c.isAlpha || c.isDigit || c == '+' || c == '-' || c == '.'

/-- Go `net/url.getScheme`: `some (scheme, rest)`, scheme lowercased and
possibly empty; `none` is the "missing protocol scheme" parse error. -/
def getScheme (raw : String) : Option (String × String) :=
  let cs := raw.data
  match cs.findIdx? (fun c => !(isSchemeChar c)) with
  | none => some ("", raw)
  | some i =>
    if cs.getD i ' ' == ':' then
      if i == 0 then none
      else if (cs.getD 0 ' ').isAlpha then
        some (strToLower ⟨cs.take i⟩, ⟨cs.drop (i + 1)⟩)
      else some ("", raw)
    else some ("", raw)

/-- Go `net/url.validOptionalPort`: empty, or `:` followed by digits only. -/
def validOptionalPort (p : String) : Bool :=
  match p.data with
  | [] => true
  | c :: digits => c == ':' && digits.all Char.isDigit

/-- The bytes Go `shouldEscape(c, encodeHost)` admits in a host: ASCII
letters and digits, the listed sub-delimiters, and everything ≥ 0x80. -/
def validHostChar (c : Char) : Bool :=
  c.isAlphanum || decide (128 ≤ c.toNat) || "-_.~!$&'()*+,;=:[]<>\"".data.contains c

/-- Go `net/url.parseHost` for non-bracketed hosts: reject an invalid
port after the last `:`, reject bytes `shouldEscape` refuses.  Bracketed
IPv6 literals and percent-escapes are modelled as parse failures. -/
def parseHost (host : String) : Option String :=
  if strStartsWith host "[" then none
  else
    let portOk :=
      match lastIdxOf host.data ':' with
      | some i => validOptionalPort ⟨host.data.drop i⟩
      | none => true
    if portOk && host.data.all validHostChar then some host else none

/-- Go `net/url.parseAuthority`: userinfo before the last `@` is dropped
(its character validation is not modelled), the rest is the host. -/
def parseAuthority (authority : String) : Option String :=
  match lastIdxOf authority.data '@' with
  | none => parseHost authority
  | some i => parseHost ⟨authority.data.drop (i + 1)⟩

/-- Go `net/url.Parse` restricted to the fields the repository reads.
`none` is a parse error. -/
def parseURL (raw : String) : Option GoURL :=
  let noFrag : String := ⟨raw.data.takeWhile (fun c => c != '#')⟩
  match getScheme noFrag with
  | none => none
  | some (scheme, rest0) =>
    let rest : String := ⟨rest0.data.takeWhile (fun c => c != '?')⟩
    if strStartsWith rest "//" && (scheme != "" || !(strStartsWith rest "///")) then
      let authority : String := ⟨(rest.data.drop 2).takeWhile (fun c => c != '/')⟩
      match parseAuthority authority with
      | none => none
      | some host => some { scheme := scheme, host := host }
    else
      some { scheme := scheme, host := "" }

/-- Go `url.URL.Hostname()`: strip a valid numeric port after the last
`:`, then surrounding brackets. -/
def hostnameOf (u : GoURL) : String :=
  let host := u.host
  let unported : String :=
    match lastIdxOf host.data ':' with
    | some i =>
      if validOptionalPort ⟨host.data.drop i⟩ then ⟨host.data.take i⟩ else host
    | none => host
  if strStartsWith unported "[" && strEndsWith unported "]" then
    ⟨(unported.data.drop 1).dropLast⟩
  else unported

/-! ### The network environment -/

/-- An HTML token as `getAllDomainsFromPage` distinguishes them: an
element start tag with its attributes, or any other non-error token. -/
inductive Token where
  | startTag (data : String) (attrs : List (String × String))
  | otherTok
  deriving DecidableEq, Repr

/-- One HTTP response as the code observes it: status, the `Content-Type`
header, and the body already run through `html.NewTokenizer` (the token
stream up to, and not including, the terminating `ErrorToken`). -/
structure HTTPResponse where
  statusCode : Nat
  contentType : String
  body : List Token
  deriving DecidableEq, Repr

/-- The network: `dns` is `net.LookupIP` (`none` = resolution error),
`fetch` is `client.Get` after redirects (`none` = transport error).  The
10-second timeout and the 10-redirect cap live inside `fetch`. -/
structure Network where
  dns : String → Option (List (List Nat))
  fetch : String → Option HTTPResponse

/-- The reasons `validateURL` rejects a URL, one per `return fmt.Errorf`
site in the Go function. -/
inductive URLError where
  | emptyURL
  | invalidFormat
  | unsupportedScheme (s : String)
  | noHostname
  | resolutionFailure
  | privateNetwork (ip : List Nat)
  deriving DecidableEq, Repr

/-- Go `validateURL`: empty check, parse, scheme whitelist, hostname
check, DNS resolution, and the private-range check over every resolved
address (the first private address raises the error, as the Go loop
does). -/
def validateURL (env : Network) (rawURL : String) : Except URLError Unit :=
  if rawURL = "" then .error .emptyURL
  else
    match parseURL rawURL with
    | none => .error .invalidFormat
    | some u =>
      if u.scheme != "http" && u.scheme != "https" then
        .error (.unsupportedScheme u.scheme)
      else
        let hostname := hostnameOf u
        if hostname = "" then .error .noHostname
        else
          match env.dns hostname with
          | none => .error .resolutionFailure
          | some ips =>
            match ips.find? (fun ip => isPrivateIP ip) with
            | some ip => .error (.privateNetwork ip)
            | none => .ok ()

/-! ### Domain extraction -/

/-- Go `extractDomainFromURL`, with each `fmt.Errorf` message kept (minus
its formatting arguments) so the error cases stay distinguishable. -/
def extractDomainFromURL (pageURL : String) : Except String String :=
  if pageURL = "" then .error "URL cannot be empty"
  else
    let withScheme :=
      if strStartsWith pageURL "http://" || strStartsWith pageURL "https://" then pageURL
      else "https://" ++ pageURL
    match parseURL withScheme with
    | none => .error "invalid URL format"
    | some u =>
      let hostname := hostnameOf u
      if hostname = "" then .error "no valid hostname found"
      else if strContains hostname " " then .error "hostname contains spaces"
      else if decide (253 < hostname.length) then .error "hostname too long"
      else .ok hostname

/-! ### Feed probing -/

/-- Go `commonPatterns`, in source order. -/
def commonPatterns : List String :=
  ["/index.xml", "/feed", "/feed.xml", "/rss", "/rss.xml", "/atom.xml", "/?format=rss"]

/-- Go `checkRSSFeed`: the URL must pass `validateURL`, the GET must
succeed with status 200, and the `Content-Type` header must contain the
substring "xml" or "rss". -/
def checkRSSFeed (env : Network) (feedURL : String) : Bool :=
  match validateURL env feedURL with
  | .error _ => false
  | .ok _ =>
    match env.fetch feedURL with
    | none => false
    | some resp =>
      if resp.statusCode != 200 then false
      else strContains resp.contentType "xml" || strContains resp.contentType "rss"

/-- The pattern loop of Go `findPreferredRSSFeed`, one step per pattern. -/
def findFeedAux (env : Network) (domain : String) : List String → String
  | [] => ""
  | p :: rest =>
    let feedURL := "https://" ++ domain ++ p
    if checkRSSFeed env feedURL then feedURL else findFeedAux env domain rest

/-- Go `findPreferredRSSFeed`: first pattern of `commonPatterns` whose
probe succeeds wins; exhaustion returns `""`. -/
def findPreferredRSSFeed (env : Network) (domain : String) : String :=
  findFeedAux env domain commonPatterns

/-! ### Concurrent domain scanner

Go `checkDomainsForRSS` runs one goroutine per domain, publishes each
non-empty probe result on a channel behind a mutex-guarded `feedMap`
membership check, and drains the channel into a list.  Goroutine
completion order only permutes that list; the embedding fixes one order
(the input list's) and keeps the guard: `seen` is `feedMap`. -/

/-- One worker step per input domain, with the `feedMap` dedup guard. -/
def scanAux (env : Network) : List String → List String → List String
  | [], _ => []
  | d :: rest, seen =>
    let feed := findPreferredRSSFeed env d
    if feed != "" && !(seen.contains d) then
      feed :: scanAux env rest (d :: seen)
    else
      scanAux env rest seen

/-- Go `checkDomainsForRSS` (domain iteration order made explicit). -/
def checkDomainsForRSS (env : Network) (domains : List String) : List String :=
  scanAux env domains []

/-! ### Page link harvesting -/

/-- Insertion into the `domains` set (Go `map[string]bool` membership). -/
def insertDom (doms : List String) (d : String) : List String :=
  if d ∈ doms then doms else doms ++ [d]

/-- The body of the `href` case in Go `getAllDomainsFromPage`: parse the
value; on success with non-empty `Host`, insert the hostname; a parse
failure or empty host contributes nothing. -/
def hrefStep (doms : List String) (v : String) : List String :=
  match parseURL v with
  | some u => if u.host != "" then insertDom doms (hostnameOf u) else doms
  | none => doms

/-- The attribute loop of Go `getAllDomainsFromPage`: every `href` whose
value parses to a URL with non-empty `Host` contributes its hostname;
any other attribute, and any `href` that fails to parse, is skipped. -/
def harvestAttrs : List (String × String) → List String → List String
  | [], doms => doms
  | (k, v) :: rest, doms =>
    harvestAttrs rest (if k == "href" then hrefStep doms v else doms)

/-- The token loop of Go `getAllDomainsFromPage`: start tags named "a"
feed the attribute loop; every other token is ignored; the end of the
list is the `ErrorToken` that returns the accumulated set. -/
def harvestTokens : List Token → List String → List String
  | [], doms => doms
  | .startTag name attrs :: rest, doms =>
    harvestTokens rest (if name == "a" then harvestAttrs attrs doms else doms)
  | .otherTok :: rest, doms => harvestTokens rest doms

/-- The two failure exits of Go `getAllDomainsFromPage`. -/
inductive PageError where
  | invalidURL (e : URLError)
  | fetchFailed
  deriving DecidableEq, Repr

/-- Go `getAllDomainsFromPage`: validate, fetch, tokenize, harvest. -/
def getAllDomainsFromPage (env : Network) (pageURL : String) :
    Except PageError (List String) :=
  match validateURL env pageURL with
  | .error e => .error (.invalidURL e)
  | .ok _ =>
    match env.fetch pageURL with
    | none => .error .fetchFailed
    | some resp => .ok (harvestTokens resp.body [])

/-! ### Orchestrator -/

/-- The feed-reader client (miniflux-style REST API).  Endpoint and API
key are already bound into the functions, as `Run` binds the package
globals `apiEndpoint`/`apiKey` from the configuration before any call. -/
structure Api where
  getCategoryId : String → Except Unit Int
  getCategoryFeeds : Int → Except Unit (List Int)
  deleteFeed : Int → Except Unit Unit
  subscribeToFeed : Int → String → Except Unit Unit

/-- `pkg/config.Config` as `Run` reads it (`RSSReaderEndpoint`,
`RSSReaderAPIKey`, and the `SingleURLMode` default consulted at the mode
decision). -/
structure Config where
  RSSReaderEndpoint : String
  RSSReaderAPIKey : String
  SingleURLMode : Bool
  deriving DecidableEq, Repr

/-- The non-nil errors `Run` can return, one constructor per `return`
site that wraps an error. -/
inductive RunError where
  | categoryResolution (category : String)
  | categoryFeeds (categoryId : Int)
  | pageFetch (pageURL : String)
  | domainExtraction (msg : String)
  | subscribeFailed (feed : String)
  deriving DecidableEq, Repr

/-- Go `runSingleURLMode`: extract the seed's domain, probe it once;
in debug mode a found feed counts as success without a subscribe call;
otherwise a subscribe failure is RETURNED (`return 0, err`). -/
def runSingleURLMode (env : Network) (api : Api) (pageURL : String)
    (categoryId : Int) (debug : Bool) : Nat × Option RunError :=
  match extractDomainFromURL pageURL with
  | .error e => (0, some (.domainExtraction e))
  | .ok domain =>
    let feed := findPreferredRSSFeed env domain
    if feed != "" then
      if debug then (1, none)
      else
        match api.subscribeToFeed categoryId feed with
        | .error _ => (0, some (.subscribeFailed feed))
        | .ok _ => (1, none)
    else (0, none)

/-- The subscribe loop of Go `runTraversalMode`: debug counts every feed
as a success; a real subscribe failure is logged and NOT counted. -/
def subscribeLoop (api : Api) (categoryId : Int) (debug : Bool) :
    List String → Nat
  | [] => 0
  | feed :: rest =>
    (if debug then 1
     else
       match api.subscribeToFeed categoryId feed with
       | .ok _ => 1
       | .error _ => 0) + subscribeLoop api categoryId debug rest

/-- Go `runTraversalMode`: harvest the page (failure is fatal), scan all
domains, subscribe to every discovered feed. -/
def runTraversalMode (env : Network) (api : Api) (pageURL : String)
    (categoryId : Int) (debug : Bool) : Nat × Option RunError :=
  match getAllDomainsFromPage env pageURL with
  | .error _ => (0, some (.pageFetch pageURL))
  | .ok domains =>
    if domains.length = 0 then (0, none)
    else
      let validFeeds := checkDomainsForRSS env domains
      if validFeeds.length = 0 then (0, none)
      else (subscribeLoop api categoryId debug validFeeds, none)

/-- Go `Run`: resolve the category (failure fatal); optionally clear the
category's feeds (listing failure fatal, per-feed delete failures only
logged — the embedding drops the logged-only `deleteFeed` calls); then
dispatch on `singleURLMode || conf.SingleURLMode`. -/
def Run (env : Network) (api : Api) (pageURL category : String)
    (debug clearCategoryFeeds singleURLMode : Bool) (conf : Config) :
    Nat × Option RunError :=
  match api.getCategoryId category with
  | .error _ => (0, some (.categoryResolution category))
  | .ok categoryId =>
    let clearOutcome : Option RunError :=
      if clearCategoryFeeds then
        match api.getCategoryFeeds categoryId with
        | .error _ => some (.categoryFeeds categoryId)
        | .ok _ => none
      else none
    match clearOutcome with
    | some e => (0, some e)
    | none =>
      let useSingleURLMode := singleURLMode || conf.SingleURLMode
      if useSingleURLMode then
        runSingleURLMode env api pageURL categoryId debug
      else
        runTraversalMode env api pageURL categoryId debug

/-! ### Concrete fixtures (used by witnesses and counterexamples) -/

/-- A public IPv4 address in 4-byte form. -/
def pubIP : List Nat := [93, 184, 216, 34]

/-- Network in which every hostname resolves publicly and exactly
`https://example.com/index.xml` serves an XML feed. -/
def feedEnv : Network where
  dns := fun _ => some [pubIP]
  fetch := fun u =>
    if u == "https://example.com/index.xml" then
      some { statusCode := 200, contentType := "application/xml", body := [] }
    else none

/-- `feedEnv` with one unrelated page changed: it agrees with `feedEnv`
on every probe URL of `example.com`. -/
def feedEnvAlt : Network where
  dns := fun _ => some [pubIP]
  fetch := fun u =>
    if u == "https://example.com/index.xml" then
      some { statusCode := 200, contentType := "application/xml", body := [] }
    else if u == "https://other.example.net/page" then
      some { statusCode := 200, contentType := "text/html", body := [] }
    else none

/-- A seed page with one good link, one malformed link (space in the
host) and a text token. -/
def seedResp : HTTPResponse where
  statusCode := 200
  contentType := "text/html"
  body := [Token.startTag "a" [("href", "https://techblog.example.org/post")],
           Token.startTag "a" [("href", "http://bad host/post")],
           Token.otherTok]

/-- Network serving `seedResp` at the seed URL. -/
def pageEnv : Network where
  dns := fun _ => some [pubIP]
  fetch := fun u => if u == "https://seed.example.com" then some seedResp else none

/-- The 16-byte `net.IP` holding `10.0.0.1` (`::ffff:10.0.0.1`). -/
def mapped10 : List Nat := [0, 0, 0, 0, 0, 0, 0, 0, 0, 0, 255, 255, 10, 0, 0, 1]

/-- Network in which `intranet.example.com` resolves to the 16-byte
(IPv4-mapped) form of `10.0.0.1`, as Go's resolver returns for
`/etc/hosts` entries and cgo lookups. -/
def intranetEnv : Network where
  dns := fun h => if h == "intranet.example.com" then some [mapped10] else none
  fetch := fun _ => none

/-- Feed-reader client for which every call succeeds (category 7). -/
def okApi : Api where
  getCategoryId := fun _ => .ok 7
  getCategoryFeeds := fun _ => .ok []
  deleteFeed := fun _ => .ok ()
  subscribeToFeed := fun _ _ => .ok ()

/-- `okApi` with every subscribe call failing. -/
def subFailApi : Api :=
  { okApi with subscribeToFeed := fun _ _ => .error () }

/-- `okApi` with category resolution failing. -/
def catFailApi : Api :=
  { okApi with getCategoryId := fun _ => .error () }

/-- Configuration with the single-URL default off. -/
def confOff : Config where
  RSSReaderEndpoint := "https://reader.example.net"
  RSSReaderAPIKey := "key"
  SingleURLMode := false

/-- Configuration with the single-URL default on. -/
def confOn : Config := { confOff with SingleURLMode := true }

/-! ## Lemmas and claim theorems -/

/-- Probe URLs are never the empty string, so `""` unambiguously encodes
"no feed found". -/
theorem probe_url_ne_empty (domain p : String) : "https://" ++ domain ++ p ≠ "" := by
  intro h
  have h2 := congrArg String.length h
  rw [String.length_append, String.length_append, String.length_empty] at h2
  have h3 : ("https://" : String).length = 8 := rfl
  omega

/-- The pattern loop returns the first pattern whose probe succeeds. -/
theorem findFeedAux_eq_find (env : Network) (domain : String) (ps : List String) :
    findFeedAux env domain ps =
      ((ps.find? fun p => checkRSSFeed env ("https://" ++ domain ++ p)).map
        (fun p => "https://" ++ domain ++ p)).getD "" := by
  induction ps with
  | nil => rfl
  | cons p rest ih =>
    by_cases h : checkRSSFeed env ("https://" ++ domain ++ p) = true
    · rw [List.find?_cons_of_pos (p := fun q => checkRSSFeed env ("https://" ++ domain ++ q)) rest h]
      simp [findFeedAux, h]
    · rw [List.find?_cons_of_neg (p := fun q => checkRSSFeed env ("https://" ++ domain ++ q)) rest h,
        ← ih]
      simp [findFeedAux, h]

/-- C3: `findPreferredRSSFeed` tries exactly the seven fixed patterns
`/index.xml`, `/feed`, `/feed.xml`, `/rss`, `/rss.xml`, `/atom.xml`,
`/?format=rss` in that order, returns the URL built from the first
pattern whose probe succeeds, and returns the empty string (a non-error
negative result) exactly when all seven probes fail. -/
theorem findFeed_first_pattern (env : Network) (domain : String) :
    commonPatterns =
      ["/index.xml", "/feed", "/feed.xml", "/rss", "/rss.xml", "/atom.xml", "/?format=rss"] ∧
    findPreferredRSSFeed env domain =
      ((commonPatterns.find? fun p => checkRSSFeed env ("https://" ++ domain ++ p)).map
        (fun p => "https://" ++ domain ++ p)).getD "" ∧
    (findPreferredRSSFeed env domain = "" ↔
      ∀ p ∈ commonPatterns, checkRSSFeed env ("https://" ++ domain ++ p) = false) := by
  refine ⟨rfl, findFeedAux_eq_find env domain commonPatterns, ?_⟩
  rw [findPreferredRSSFeed, findFeedAux_eq_find env domain commonPatterns]
  cases hfind : commonPatterns.find? fun p => checkRSSFeed env ("https://" ++ domain ++ p) with
  | none =>
    simp only [Option.map_none', Option.getD_none, true_iff]
    intro p hp
    exact Bool.not_eq_true _ ▸ (List.find?_eq_none.mp hfind p hp)
  | some p =>
    simp only [Option.map_some', Option.getD_some]
    constructor
    · intro h
      exact absurd h (probe_url_ne_empty domain p)
    · intro hall
      have hmem := List.mem_of_find?_eq_some hfind
      have := List.find?_some hfind
      rw [hall p hmem] at this
      cases this

/-- A non-empty probe result always has the shape
`"https://" ++ domain ++ pattern` for a pattern of the fixed list. -/
theorem findFeed_shape (env : Network) (domain : String)
    (h : findPreferredRSSFeed env domain ≠ "") :
    ∃ p ∈ commonPatterns, findPreferredRSSFeed env domain = "https://" ++ domain ++ p := by
  rw [findPreferredRSSFeed, findFeedAux_eq_find env domain commonPatterns] at h ⊢
  cases hfind : commonPatterns.find? fun p => checkRSSFeed env ("https://" ++ domain ++ p) with
  | none => rw [hfind] at h; simp at h
  | some p =>
    exact ⟨p, List.mem_of_find?_eq_some hfind, rfl⟩

/-- C9: the probe's result depends only on the domain and on the
responses served for the seven probe URLs of that domain: two networks
(or two successive calls against one network) that classify those seven
URLs the same yield the same result.  The embedding is stateless, as the
Go function touches no package state. -/
theorem findFeed_deterministic (env envB : Network) (domain : String)
    (h : ∀ p ∈ commonPatterns,
      checkRSSFeed env ("https://" ++ domain ++ p) =
        checkRSSFeed envB ("https://" ++ domain ++ p)) :
    findPreferredRSSFeed env domain = findPreferredRSSFeed envB domain := by
  rw [findPreferredRSSFeed, findPreferredRSSFeed]
  have aux : ∀ ps : List String,
      (∀ p ∈ ps, checkRSSFeed env ("https://" ++ domain ++ p) =
        checkRSSFeed envB ("https://" ++ domain ++ p)) →
      findFeedAux env domain ps = findFeedAux envB domain ps := by
    intro ps
    induction ps with
    | nil => intro _; rfl
    | cons p rest ih =>
      intro hps
      have hp := hps p (List.mem_cons_self p rest)
      have hrest := ih fun q hq => hps q (List.mem_cons_of_mem p hq)
      simp only [findFeedAux, ← hp, hrest]
  exact aux commonPatterns h

/-- Witness for C9 at two concretely different networks that agree on
every probe URL of `example.com`. -/
theorem findFeed_deterministic_witness :
    (∀ p ∈ commonPatterns,
      checkRSSFeed feedEnv ("https://" ++ "example.com" ++ p) =
        checkRSSFeed feedEnvAlt ("https://" ++ "example.com" ++ p)) ∧
    findPreferredRSSFeed feedEnv "example.com" = findPreferredRSSFeed feedEnvAlt "example.com" :=
  ⟨by decide, findFeed_deterministic feedEnv feedEnvAlt "example.com" (by decide)⟩

/-- C10: every non-empty feed URL the probe engine or the scanner
produces is exactly `"https://" ++ domain ++ pattern` for the probed
domain and a pattern of the fixed list — in particular it always uses
the https scheme. -/
theorem feed_url_shape (env : Network) (domain : String) (domains : List String)
    (h : findPreferredRSSFeed env domain ≠ "") :
    (∃ p ∈ commonPatterns, findPreferredRSSFeed env domain = "https://" ++ domain ++ p) ∧
    ∀ f ∈ checkDomainsForRSS env domains,
      ∃ d ∈ domains, ∃ p ∈ commonPatterns, f = "https://" ++ d ++ p := by
  refine ⟨findFeed_shape env domain h, ?_⟩
  have aux : ∀ (l seen : List String), ∀ f ∈ scanAux env l seen,
      ∃ d ∈ l, ∃ p ∈ commonPatterns, f = "https://" ++ d ++ p := by
    intro l
    induction l with
    | nil => intro seen f hf; cases hf
    | cons d rest ih =>
      intro seen f hf
      rw [scanAux] at hf
      by_cases hc : (findPreferredRSSFeed env d != "" && !(seen.contains d)) = true
      · rw [if_pos hc] at hf
        rcases List.mem_cons.mp hf with rfl | hf2
        · have hne : findPreferredRSSFeed env d ≠ "" :=
            bne_iff_ne.mp (Bool.and_elim_left hc)
          obtain ⟨p, hp, heq⟩ := findFeed_shape env d hne
          exact ⟨d, List.mem_cons_self d rest, p, hp, heq⟩
        · obtain ⟨d2, hd2, p, hp, heq⟩ := ih (d :: seen) f hf2
          exact ⟨d2, List.mem_cons_of_mem d hd2, p, hp, heq⟩
      · rw [if_neg hc] at hf
        obtain ⟨d2, hd2, p, hp, heq⟩ := ih seen f hf
        exact ⟨d2, List.mem_cons_of_mem d hd2, p, hp, heq⟩
  exact aux domains []

/-- Witness for C10 at the concrete network `feedEnv`. -/
theorem feed_url_shape_witness :
    findPreferredRSSFeed feedEnv "example.com" ≠ "" ∧
    ((∃ p ∈ commonPatterns,
        findPreferredRSSFeed feedEnv "example.com" = "https://" ++ "example.com" ++ p) ∧
      ∀ f ∈ checkDomainsForRSS feedEnv ["example.com"],
        ∃ d ∈ ["example.com"], ∃ p ∈ commonPatterns, f = "https://" ++ d ++ p) :=
  ⟨by decide, feed_url_shape feedEnv "example.com" ["example.com"] (by decide)⟩

/-- C4: for a URL that passed validation, the probe classifies it as a
feed iff the response exists, its status is exactly 200, and its
`Content-Type` contains the substring "xml" or "rss" (case-sensitive:
the last conjunct shows "XML" does not match); a transport error always
classifies as false. -/
theorem checkRSSFeed_classification (env : Network) (url : String) :
    (∀ resp, env.fetch url = some resp →
      (checkRSSFeed env url = true ↔
        validateURL env url = .ok () ∧ resp.statusCode = 200 ∧
          (strContains resp.contentType "xml" = true ∨
            strContains resp.contentType "rss" = true))) ∧
    (env.fetch url = none → checkRSSFeed env url = false) ∧
    strContains "text/XML" "xml" = false := by
  refine ⟨?_, ?_, by decide⟩
  · intro resp hresp
    cases hv : validateURL env url with
    | error e =>
      rw [checkRSSFeed, hv]
      simp [hv]
    | ok u =>
      cases u
      rw [checkRSSFeed, hv, hresp]
      by_cases hst : resp.statusCode = 200
      · simp [hst]
      · have : (resp.statusCode != 200) = true := bne_iff_ne.mpr hst
        simp [this, hst]
  · intro hnone
    cases hv : validateURL env url with
    | error e => rw [checkRSSFeed, hv]
    | ok u => cases u; rw [checkRSSFeed, hv, hnone]

/-- C7: the sample behaviours of `extractDomainFromURL`: full URLs keep
only the hostname, bare hostnames pass through, ports are stripped, the
empty string and `"://invalid"` fail, and the scheme-free string
`"not-a-url"` is returned verbatim. -/
theorem extractDomain_cases :
    extractDomainFromURL "https://example.com/blog/post" = .ok "example.com" ∧
    extractDomainFromURL "blog.example.com" = .ok "blog.example.com" ∧
    extractDomainFromURL "example.com:8080/feed" = .ok "example.com" ∧
    extractDomainFromURL "" = .error "URL cannot be empty" ∧
    extractDomainFromURL "://invalid" = .error "no valid hostname found" ∧
    extractDomainFromURL "not-a-url" = .ok "not-a-url" :=
  ⟨rfl, rfl, rfl, rfl, rfl, rfl⟩

/-- C5 (the code's divergence, evaluated): `10.0.0.1` is recognised as
private in 4-byte form, but the same address in the 16-byte IPv4-mapped
form Go resolvers also return (`ipTo4` certifies it IS `10.0.0.1`) slips
through `isPrivateIP`, so `validateURL` accepts a hostname resolving to
it instead of failing with a private-network error. -/
theorem isPrivateIP_misses_mapped_form :
    ipTo4 mapped10 = some [10, 0, 0, 1] ∧
    isPrivateIP [10, 0, 0, 1] = true ∧
    isPrivateIP mapped10 = false ∧
    validateURL intranetEnv "http://intranet.example.com" = .ok () :=
  ⟨rfl, rfl, rfl, rfl⟩

/-- The published entries of a scan are the probe results of a
duplicate-free selection of input domains with non-empty results. -/
theorem scanAux_spec (env : Network) :
    ∀ l seen : List String, ∃ ds : List String,
      ds.Nodup ∧
      (∀ d ∈ ds, d ∈ l ∧ d ∉ seen ∧ findPreferredRSSFeed env d ≠ "") ∧
      scanAux env l seen = ds.map (fun d => findPreferredRSSFeed env d) := by
  intro l
  induction l with
  | nil => exact fun seen => ⟨[], List.nodup_nil, by simp, rfl⟩
  | cons d rest ih =>
    intro seen
    by_cases hc : (findPreferredRSSFeed env d != "" && !(seen.contains d)) = true
    · obtain ⟨ds, hnd, hmem, heq⟩ := ih (d :: seen)
      have hdns : d ∉ ds := fun hd =>
        (hmem d hd).2.1 (List.mem_cons_self d seen)
      have hdseen : d ∉ seen := by
        have h2 := Bool.and_elim_right hc
        rw [Bool.not_eq_true'] at h2
        intro hmem2
        rw [List.contains, (List.elem_iff).mpr hmem2] at h2
        cases h2
      refine ⟨d :: ds, List.nodup_cons.mpr ⟨hdns, hnd⟩, ?_, ?_⟩
      · intro d2 hd2
        rcases List.mem_cons.mp hd2 with rfl | hd2b
        · exact ⟨List.mem_cons_self d2 rest, hdseen,
            bne_iff_ne.mp (Bool.and_elim_left hc)⟩
        · obtain ⟨h1, h2, h3⟩ := hmem d2 hd2b
          exact ⟨List.mem_cons_of_mem d h1,
            fun hs => h2 (List.mem_cons_of_mem d hs), h3⟩
      · rw [scanAux, if_pos hc, heq]
        rfl
    · obtain ⟨ds, hnd, hmem, heq⟩ := ih seen
      refine ⟨ds, hnd, ?_, ?_⟩
      · intro d2 hd2
        obtain ⟨h1, h2, h3⟩ := hmem d2 hd2
        exact ⟨List.mem_cons_of_mem d h1, h2, h3⟩
      · rw [scanAux, if_neg hc, heq]

/-- C6: for an input set of N domains the scanner returns at most N
entries, generated by a duplicate-free sub-selection of the input
domains (at most one entry per domain), and every entry is the
(non-empty) probe result of a member of the input set. -/
theorem scan_results (env : Network) (domains : List String) :
    (checkDomainsForRSS env domains).length ≤ domains.length ∧
    ∃ ds : List String, ds.Nodup ∧ ds ⊆ domains ∧
      checkDomainsForRSS env domains = ds.map (fun d => findPreferredRSSFeed env d) ∧
      ∀ d ∈ ds, findPreferredRSSFeed env d ≠ "" := by
  obtain ⟨ds, hnd, hmem, heq⟩ := scanAux_spec env domains []
  have hsub : ds ⊆ domains := fun d hd => (hmem d hd).1
  constructor
  · rw [checkDomainsForRSS, heq, List.length_map]
    exact (hnd.subperm hsub).length_le
  · exact ⟨ds, hnd, hsub, heq, fun d hd => (hmem d hd).2.2⟩

/-- A domain the attribute loop can produce from one attribute list:
some `href` value parses to a URL with non-empty `Host` whose hostname
is `d`. -/
def attrYields (attrs : List (String × String)) (d : String) : Prop :=
  ∃ v u, ("href", v) ∈ attrs ∧ parseURL v = some u ∧ u.host ≠ "" ∧ hostnameOf u = d

/-- A domain the token loop can produce: some `<a>` start tag whose
attributes yield it. -/
def tokensYield (toks : List Token) (d : String) : Prop :=
  ∃ attrs, Token.startTag "a" attrs ∈ toks ∧ attrYields attrs d

/-- Membership in the harvested set survives insertion. -/
theorem mem_insertDom (doms : List String) (d x : String) :
    x ∈ insertDom doms d ↔ x ∈ doms ∨ x = d := by
  by_cases h : d ∈ doms
  · rw [insertDom, if_pos h]
    constructor
    · exact Or.inl
    · rintro (hx | rfl)
      · exact hx
      · exact h
  · rw [insertDom, if_neg h]
    simp

/-- Unfolding `attrYields` over one attribute. -/
theorem attrYields_cons (k v : String) (rest : List (String × String)) (d : String) :
    attrYields ((k, v) :: rest) d ↔
      (k = "href" ∧ ∃ u, parseURL v = some u ∧ u.host ≠ "" ∧ hostnameOf u = d) ∨
      attrYields rest d := by
  constructor
  · rintro ⟨v2, u, hmem, hp, hh, hd⟩
    rcases List.mem_cons.mp hmem with heq | hmem2
    · obtain ⟨hk, hv⟩ := Prod.mk.injEq .. ▸ heq
      subst hv
      exact Or.inl ⟨hk.symm, u, hp, hh, hd⟩
    · exact Or.inr ⟨v2, u, hmem2, hp, hh, hd⟩
  · rintro (⟨rfl, u, hp, hh, hd⟩ | ⟨v2, u, hmem2, hp, hh, hd⟩)
    · exact ⟨v, u, List.mem_cons_self _ _, hp, hh, hd⟩
    · exact ⟨v2, u, List.mem_cons_of_mem _ hmem2, hp, hh, hd⟩

/-- One `href` step inserts exactly the hostname of a well-parsed value
with non-empty host. -/
theorem mem_hrefStep (doms : List String) (v d : String) :
    d ∈ hrefStep doms v ↔
      d ∈ doms ∨ ∃ u, parseURL v = some u ∧ u.host ≠ "" ∧ hostnameOf u = d := by
  cases hp : parseURL v with
  | none =>
    simp only [hrefStep, hp]
    constructor
    · exact Or.inl
    · rintro (h | ⟨u, hu, _⟩)
      · exact h
      · cases hu
  | some u =>
    by_cases hh : u.host = ""
    · have hb : (u.host != "") = false := by
        rw [bne_eq_false_iff_eq]; exact hh
      simp only [hrefStep, hp, hb, Bool.false_eq_true, if_false]
      constructor
      · exact Or.inl
      · rintro (h | ⟨u2, hu2, hh2, _⟩)
        · exact h
        · cases hu2
          exact absurd hh hh2
    · have hb : (u.host != "") = true := bne_iff_ne.mpr hh
      simp only [hrefStep, hp, hb, if_true, mem_insertDom]
      constructor
      · rintro (h | h)
        · exact Or.inl h
        · exact Or.inr ⟨u, rfl, hh, h.symm⟩
      · rintro (h | ⟨u2, hu2, hh2, hd2⟩)
        · exact Or.inl h
        · cases hu2
          exact Or.inr hd2.symm

/-- The attribute loop only ever inserts hostnames of well-parsed
`href` values, and inserts all of them. -/
theorem mem_harvestAttrs :
    ∀ (attrs : List (String × String)) (doms : List String) (d : String),
      d ∈ harvestAttrs attrs doms ↔ d ∈ doms ∨ attrYields attrs d := by
  intro attrs
  induction attrs with
  | nil =>
    intro doms d
    rw [harvestAttrs]
    simp [attrYields]
  | cons kv rest ih =>
    intro doms d
    obtain ⟨k, v⟩ := kv
    rw [harvestAttrs, ih, attrYields_cons]
    by_cases hk : k = "href"
    · subst hk
      rw [if_pos (by decide : (("href" : String) == "href") = true), mem_hrefStep]
      constructor
      · rintro ((h | hex) | h2)
        · exact Or.inl h
        · exact Or.inr (Or.inl ⟨rfl, hex⟩)
        · exact Or.inr (Or.inr h2)
      · rintro (h | ⟨-, hex⟩ | h2)
        · exact Or.inl (Or.inl h)
        · exact Or.inl (Or.inr hex)
        · exact Or.inr h2
    · rw [if_neg (by simpa using hk)]
      tauto

/-- The token loop collects exactly the domains yielded by `<a>` start
tags, whatever else the stream holds. -/
theorem mem_harvestTokens :
    ∀ (toks : List Token) (doms : List String) (d : String),
      d ∈ harvestTokens toks doms ↔ d ∈ doms ∨ tokensYield toks d := by
  intro toks
  induction toks with
  | nil =>
    intro doms d
    rw [harvestTokens]
    simp [tokensYield]
  | cons t rest ih =>
    intro doms d
    cases t with
    | otherTok =>
      rw [harvestTokens, ih]
      constructor
      · rintro (h1 | h2)
        · exact Or.inl h1
        · exact Or.inr ⟨h2.choose, List.mem_cons_of_mem _ h2.choose_spec.1, h2.choose_spec.2⟩
      · rintro (h1 | ⟨attrs, hmem, hy⟩)
        · exact Or.inl h1
        · rcases List.mem_cons.mp hmem with heq | hmem2
          · cases heq
          · exact Or.inr ⟨attrs, hmem2, hy⟩
    | startTag name attrs =>
      rw [harvestTokens, ih]
      by_cases hn : name = "a"
      · subst hn
        have hna : (("a" : String) == "a") = true := by decide
        rw [if_pos hna, mem_harvestAttrs]
        constructor
        · rintro ((h1 | h1b) | h2)
          · exact Or.inl h1
          · exact Or.inr ⟨attrs, List.mem_cons_self _ _, h1b⟩
          · exact Or.inr ⟨h2.choose, List.mem_cons_of_mem _ h2.choose_spec.1, h2.choose_spec.2⟩
        · rintro (h1 | ⟨attrs2, hmem, hy⟩)
          · exact Or.inl (Or.inl h1)
          · rcases List.mem_cons.mp hmem with heq | hmem2
            · obtain ⟨-, rfl⟩ := Token.startTag.injEq .. ▸ heq
              exact Or.inl (Or.inr hy)
            · exact Or.inr ⟨attrs2, hmem2, hy⟩
      · rw [if_neg (by simpa using hn)]
        constructor
        · rintro (h1 | h2)
          · exact Or.inl h1
          · exact Or.inr ⟨h2.choose, List.mem_cons_of_mem _ h2.choose_spec.1, h2.choose_spec.2⟩
        · rintro (h1 | ⟨attrs2, hmem, hy⟩)
          · exact Or.inl h1
          · rcases List.mem_cons.mp hmem with heq | hmem2
            · obtain ⟨hn2, -⟩ := Token.startTag.injEq .. ▸ heq
              exact absurd hn2.symm hn
            · exact Or.inr ⟨attrs2, hmem2, hy⟩

/-- C8: once the page fetch succeeds the harvest always returns the
accumulated set without error when the token stream ends; each anchor
`href` that parses to a URL with a non-empty host contributes its
hostname, and every malformed `href` is skipped silently — no bad link
makes the harvest fail. -/
theorem harvest_never_fails (env : Network) (pageURL : String) (resp : HTTPResponse)
    (hv : validateURL env pageURL = .ok ())
    (hf : env.fetch pageURL = some resp) :
    getAllDomainsFromPage env pageURL = .ok (harvestTokens resp.body []) ∧
    ∀ d, d ∈ harvestTokens resp.body [] ↔ tokensYield resp.body d := by
  refine ⟨?_, ?_⟩
  · rw [getAllDomainsFromPage, hv, hf]
  · intro d
    rw [mem_harvestTokens]
    simp

/-- Witness for C8: the concrete seed page of `pageEnv` (one good link,
one malformed link, one text token). -/
theorem harvest_never_fails_witness :
    validateURL pageEnv "https://seed.example.com" = .ok () ∧
    pageEnv.fetch "https://seed.example.com" = some seedResp ∧
    (getAllDomainsFromPage pageEnv "https://seed.example.com" =
        .ok (harvestTokens seedResp.body []) ∧
      ∀ d, d ∈ harvestTokens seedResp.body [] ↔ tokensYield seedResp.body d) :=
  ⟨rfl, rfl, harvest_never_fails pageEnv "https://seed.example.com" seedResp rfl rfl⟩

/-- Single URL mode surfaces exactly domain-extraction failures and
(debug off) the failure of its one subscribe call. -/
theorem runSingleURLMode_errors (env : Network) (api : Api) (pageURL : String)
    (cid : Int) (debug : Bool) (e : RunError)
    (h : (runSingleURLMode env api pageURL cid debug).2 = some e) :
    (∃ m, e = .domainExtraction m) ∨
    (∃ f, e = .subscribeFailed f ∧ debug = false) := by
  rw [runSingleURLMode] at h
  cases hx : extractDomainFromURL pageURL with
  | error m =>
    rw [hx] at h
    exact Or.inl ⟨m, (Option.some.injEq .. ▸ h.symm)⟩
  | ok domain =>
    rw [hx] at h
    simp only at h
    by_cases hfeed : (findPreferredRSSFeed env domain != "") = true
    · rw [if_pos hfeed] at h
      cases debug with
      | true => cases h
      | false =>
        simp only [Bool.false_eq_true, if_false] at h
        cases hs : api.subscribeToFeed cid (findPreferredRSSFeed env domain) with
        | error u =>
          rw [hs] at h
          exact Or.inr ⟨findPreferredRSSFeed env domain,
            (Option.some.injEq .. ▸ h.symm), rfl⟩
        | ok u => rw [hs] at h; cases h
    · rw [if_neg hfeed] at h
      cases h

/-- Traversal mode surfaces exactly page-harvest failures. -/
theorem runTraversalMode_errors (env : Network) (api : Api) (pageURL : String)
    (cid : Int) (debug : Bool) (e : RunError)
    (h : (runTraversalMode env api pageURL cid debug).2 = some e) :
    ∃ u, e = .pageFetch u := by
  rw [runTraversalMode] at h
  cases hx : getAllDomainsFromPage env pageURL with
  | error pe =>
    rw [hx] at h
    exact ⟨pageURL, (Option.some.injEq .. ▸ h.symm)⟩
  | ok domains =>
    rw [hx] at h
    simp only at h
    by_cases hlen : domains.length = 0
    · rw [if_pos hlen] at h; cases h
    · rw [if_neg hlen] at h
      by_cases hfeeds : (checkDomainsForRSS env domains).length = 0
      · rw [if_pos hfeeds] at h; cases h
      · rw [if_neg hfeeds] at h; cases h

/-- C1 (amended): a non-nil error from `Run` is a category-resolution
failure, a category-feed-listing failure (when clearing), or — in
Traversal Mode — a page-harvest failure only: there an individual
subscribe failure never surfaces.  In Single URL Mode, however, the
error can also be a domain-extraction failure or the failure of the one
subscribe call (debug off), which IS returned to the caller. -/
theorem run_error_taxonomy (env : Network) (api : Api) (pageURL category : String)
    (debug clear cli : Bool) (conf : Config) (e : RunError)
    (h : (Run env api pageURL category debug clear cli conf).2 = some e) :
    ((cli || conf.SingleURLMode) = true →
      (∃ c, e = .categoryResolution c) ∨ (∃ i, e = .categoryFeeds i) ∨
      (∃ m, e = .domainExtraction m) ∨ (∃ f, e = .subscribeFailed f ∧ debug = false)) ∧
    ((cli || conf.SingleURLMode) = false →
      (∃ c, e = .categoryResolution c) ∨ (∃ i, e = .categoryFeeds i) ∨
      (∃ u, e = .pageFetch u)) := by
  rw [Run] at h
  cases hcat : api.getCategoryId category with
  | error u =>
    rw [hcat] at h
    have he : e = .categoryResolution category := Option.some.injEq .. ▸ h.symm
    exact ⟨fun _ => Or.inl ⟨category, he⟩, fun _ => Or.inl ⟨category, he⟩⟩
  | ok cid =>
    rw [hcat] at h
    simp only at h
    cases clear with
    | true =>
      rw [if_pos rfl] at h
      cases hfs : api.getCategoryFeeds cid with
      | error u =>
        rw [hfs] at h
        simp only at h
        have he : e = .categoryFeeds cid := Option.some.injEq .. ▸ h.symm
        exact ⟨fun _ => Or.inr (Or.inl ⟨cid, he⟩), fun _ => Or.inr (Or.inl ⟨cid, he⟩)⟩
      | ok fs =>
        rw [hfs] at h
        simp only at h
        constructor
        · intro hmode
          rw [hmode, if_pos rfl] at h
          rcases runSingleURLMode_errors env api pageURL cid debug e h with h1 | h2
          · exact Or.inr (Or.inr (Or.inl h1))
          · exact Or.inr (Or.inr (Or.inr h2))
        · intro hmode
          rw [hmode, if_neg Bool.false_ne_true] at h
          exact Or.inr (Or.inr (runTraversalMode_errors env api pageURL cid debug e h))
    | false =>
      rw [if_neg Bool.false_ne_true] at h
      simp only at h
      constructor
      · intro hmode
        rw [hmode, if_pos rfl] at h
        rcases runSingleURLMode_errors env api pageURL cid debug e h with h1 | h2
        · exact Or.inr (Or.inr (Or.inl h1))
        · exact Or.inr (Or.inr (Or.inr h2))
      · intro hmode
        rw [hmode, if_neg Bool.false_ne_true] at h
        exact Or.inr (Or.inr (runTraversalMode_errors env api pageURL cid debug e h))

/-- Witness for the amended C1 at a concrete failing category lookup. -/
theorem run_error_taxonomy_witness :
    (Run feedEnv catFailApi "https://example.com" "news" false false false confOff).2 =
      some (RunError.categoryResolution "news") ∧
    ((∃ c, RunError.categoryResolution "news" = RunError.categoryResolution c) ∨
      (∃ i, RunError.categoryResolution "news" = RunError.categoryFeeds i) ∨
      (∃ u, RunError.categoryResolution "news" = RunError.pageFetch u)) :=
  ⟨rfl,
    (run_error_taxonomy feedEnv catFailApi "https://example.com" "news" false false false
      confOff (RunError.categoryResolution "news") rfl).2 rfl⟩

/-- Counterexample to C1 as stated: in Single URL Mode (CLI flag set,
debug off) with a reachable feed and a failing subscribe endpoint, `Run`
returns the individual feed-subscription failure as a non-nil error —
it does surface from the run. -/
theorem run_surfaces_subscribe_error :
    Run feedEnv subFailApi "https://example.com" "news" false false true confOff =
      (0, some (RunError.subscribeFailed "https://example.com/index.xml")) := rfl

/-- C2: after a successful category resolution (and, when clearing was
requested, a successful feed listing), `Run` enters Single URL Mode iff
the boolean OR of the CLI flag and the configuration's `SingleURLMode`
field is true — a false CLI flag with a true config value still selects
Single URL Mode — and otherwise enters Traversal Mode. -/
theorem run_mode_selection (env : Network) (api : Api) (pageURL category : String)
    (debug clear cli : Bool) (conf : Config) (cid : Int)
    (hcat : api.getCategoryId category = .ok cid)
    (hclear : clear = false ∨ ∃ fs, api.getCategoryFeeds cid = .ok fs) :
    Run env api pageURL category debug clear cli conf =
      if cli || conf.SingleURLMode then
        runSingleURLMode env api pageURL cid debug
      else
        runTraversalMode env api pageURL cid debug := by
  rcases hclear with rfl | ⟨fs, hfs⟩
  · rw [Run, hcat]
    rfl
  · cases clear with
    | false =>
      rw [Run, hcat]
      rfl
    | true =>
      rw [Run, hcat]
      simp only
      rw [if_pos trivial, hfs]

/-- Witness for C2 with a false CLI flag and a true config default:
the run goes to Single URL Mode. -/
theorem run_mode_selection_witness :
    okApi.getCategoryId "news" = .ok 7 ∧
    Run feedEnv okApi "https://example.com" "news" false false false confOn =
      (if false || confOn.SingleURLMode then
        runSingleURLMode feedEnv okApi "https://example.com" 7 false
      else
        runTraversalMode feedEnv okApi "https://example.com" 7 false) ∧
    (false || confOn.SingleURLMode) = true :=
  ⟨rfl,
    run_mode_selection feedEnv okApi "https://example.com" "news" false false false confOn 7
      rfl (Or.inl rfl),
    rfl⟩

end RSSFFS
